import Mathlib

/-!
Verification of the block-connection hot path of this repository against its
natural-language specification.  The development shallowly embeds three
components:

- the validation outcome model (src/consensus/validation.h, CValidationState);
- the script-verification entry point (src/kernel/bitcoinkernel.cpp,
  kernel_verify_script and its pre-checks);
- the concurrent input fetch engine (src/inputfetcher.h, InputFetcher),
  modelled as a small-step transition system whose atomic steps are the
  critical sections of the source, plus a deterministic executor realizing
  the serial schedule.

Pure functions of the source become Lean functions; the stateful fetcher
becomes explicit state passing and a step relation.  Machine integers are
modelled as Nat or Int (no value in scope approaches any overflow boundary).
-/

namespace BitcoinSpec

/-! ## Validation outcome model (src/consensus/validation.h) -/

/-- Reasons why a block or transaction was invalid, mirroring the
ValidationInvalidReason enumeration of src/consensus/validation.h. -/
inductive ValidationInvalidReason where
  | NONE
  | CONSENSUS
  | RECENT_CONSENSUS_CHANGE
  | CACHED_INVALID
  | BLOCK_MUTATED
  | BLOCK_MISSING_PREV
  | BLOCK_INVALID_PREV
  | BLOCK_BAD_TIME
  | BLOCK_CHECKPOINT
  | TX_NOT_STANDARD
  | TX_MISSING_INPUTS
  | TX_WITNESS_MUTATED
  | TX_CONFLICT
  | TX_MEMPOOL_POLICY

/-- The private mode_state enumeration of CValidationState. -/
inductive ModeState where
  | MODE_VALID
  | MODE_INVALID
  | MODE_ERROR
deriving DecidableEq

/-- State captured by CValidationState.  The C++ int nDoS is modelled as Int
and the unsigned int chRejectCode as Nat; no operation in scope brings either
near an overflow boundary. -/
structure CValidationState where
  mode : ModeState
  reason : ValidationInvalidReason
  nDoS : Int
  strRejectReason : String
  chRejectCode : Nat
  corruptionPossible : Bool
  strDebugMessage : String

/-- The CValidationState default constructor. -/
def CValidationState.initial : CValidationState :=
  ⟨ModeState.MODE_VALID, ValidationInvalidReason.NONE, 0, "", 0, false, ""⟩

/-- CValidationState::DoS.  The source first stores the diagnostic fields
unconditionally, then returns early when already in MODE_ERROR, otherwise
accumulates the score and switches the mode to MODE_INVALID.  The C++ method
mutates and returns bool; here it returns the bool paired with the new
state. -/
def CValidationState.DoS (s : CValidationState) (level : Int)
    (reasonIn : ValidationInvalidReason) (ret : Bool) (chRejectCodeIn : Nat)
    (strRejectReasonIn : String) (corruptionIn : Bool)
    (strDebugMessageIn : String) : Bool × CValidationState :=
  let s1 : CValidationState :=
    { s with
      reason := reasonIn
      chRejectCode := chRejectCodeIn
      strRejectReason := strRejectReasonIn
      corruptionPossible := corruptionIn
      strDebugMessage := strDebugMessageIn }
  if s1.mode = ModeState.MODE_ERROR then
    (ret, s1)
  else
    (ret, { s1 with nDoS := s1.nDoS + level, mode := ModeState.MODE_INVALID })

/-- CValidationState::Invalid, defined in the source as DoS with level 0 and
corruption flag false. -/
def CValidationState.Invalid (s : CValidationState)
    (reasonIn : ValidationInvalidReason) (ret : Bool) (chRejectCodeIn : Nat)
    (strRejectReasonIn : String) (strDebugMessageIn : String) :
    Bool × CValidationState :=
  s.DoS 0 reasonIn ret chRejectCodeIn strRejectReasonIn false strDebugMessageIn

/-- CValidationState::Error: the first message wins (the reject reason is only
stored while still MODE_VALID), the mode becomes MODE_ERROR, and false is
returned. -/
def CValidationState.Error (s : CValidationState) (strRejectReasonIn : String) :
    Bool × CValidationState :=
  let s1 : CValidationState :=
    if s.mode = ModeState.MODE_VALID then
      { s with strRejectReason := strRejectReasonIn }
    else s
  (false, { s1 with mode := ModeState.MODE_ERROR })

/-- CValidationState::IsValid. -/
def CValidationState.IsValid (s : CValidationState) : Bool :=
  s.mode == ModeState.MODE_VALID

/-- CValidationState::IsInvalid. -/
def CValidationState.IsInvalid (s : CValidationState) : Bool :=
  s.mode == ModeState.MODE_INVALID

/-- CValidationState::IsError. -/
def CValidationState.IsError (s : CValidationState) : Bool :=
  s.mode == ModeState.MODE_ERROR

/-- CValidationState::CorruptionPossible. -/
def CValidationState.CorruptionPossible (s : CValidationState) : Bool :=
  s.corruptionPossible

/-- CValidationState::SetCorruptionPossible. -/
def CValidationState.SetCorruptionPossible (s : CValidationState) :
    CValidationState :=
  { s with corruptionPossible := true }

/-- C2: after Error has been called, a subsequent Invalid leaves IsError true,
IsInvalid false and the ban-score unchanged; and in general DoS invoked while
in MODE_ERROR changes neither mode nor score, still records the passed reason,
reject code, reject message and debug message, and returns the caller-supplied
ret value. -/
theorem dos_in_error_mode_sticky (s t : CValidationState) (msg : String)
    (level : Int) (reasonIn : ValidationInvalidReason) (ret : Bool)
    (code : Nat) (rr : String) (corr : Bool) (dm : String)
    (ht : t.IsError = true) :
    (((s.Error msg).2.Invalid reasonIn ret code rr dm).2.IsError = true
      ∧ ((s.Error msg).2.Invalid reasonIn ret code rr dm).2.IsInvalid = false
      ∧ ((s.Error msg).2.Invalid reasonIn ret code rr dm).2.nDoS
          = (s.Error msg).2.nDoS)
    ∧ ((t.DoS level reasonIn ret code rr corr dm).2.mode = t.mode
      ∧ (t.DoS level reasonIn ret code rr corr dm).2.nDoS = t.nDoS
      ∧ (t.DoS level reasonIn ret code rr corr dm).2.reason = reasonIn
      ∧ (t.DoS level reasonIn ret code rr corr dm).2.chRejectCode = code
      ∧ (t.DoS level reasonIn ret code rr corr dm).2.strRejectReason = rr
      ∧ (t.DoS level reasonIn ret code rr corr dm).2.strDebugMessage = dm
      ∧ (t.DoS level reasonIn ret code rr corr dm).1 = ret) := by
  have hmode : t.mode = ModeState.MODE_ERROR := by
    simpa [CValidationState.IsError] using ht
  constructor
  · simp [CValidationState.Error, CValidationState.Invalid, CValidationState.DoS,
      CValidationState.IsError, CValidationState.IsInvalid]
  · simp [CValidationState.DoS, hmode]

/-- C2 witness: the theorem applied to a concrete state already in error
mode. -/
theorem dos_in_error_mode_sticky_witness :
    (CValidationState.mk ModeState.MODE_ERROR ValidationInvalidReason.NONE 0
        "" 0 false "").IsError = true
    ∧ ((CValidationState.mk ModeState.MODE_ERROR ValidationInvalidReason.NONE 0
        "" 0 false "").DoS 7 ValidationInvalidReason.CONSENSUS true 16 "bad"
        false "dbg").1 = true := by
  refine ⟨by decide, ?_⟩
  exact (dos_in_error_mode_sticky CValidationState.initial
    (CValidationState.mk ModeState.MODE_ERROR ValidationInvalidReason.NONE 0
      "" 0 false "") "x" 7 ValidationInvalidReason.CONSENSUS true 16 "bad"
    false "dbg" (by decide)).2.2.2.2.2.2.2

/-- C8 counterexample: the corruption-possible flag is not set-once.  Starting
from the initial state, SetCorruptionPossible makes CorruptionPossible true,
yet a single subsequent Invalid call (which is DoS with corruptionIn false)
resets it to false. -/
theorem corruption_flag_not_monotonic_cex :
    (CValidationState.initial.SetCorruptionPossible).CorruptionPossible = true
    ∧ ((CValidationState.initial.SetCorruptionPossible).Invalid
        ValidationInvalidReason.CONSENSUS false 0 "" "").2.CorruptionPossible
        = false := by
  decide

/-- C8 amended: the corruption-possible flag is not monotonic.  DoS always
overwrites it with the passed corruptionIn argument (so Invalid, which passes
false, clears it), Error leaves it unchanged, and SetCorruptionPossible sets
it to true. -/
theorem corruption_flag_semantics (s : CValidationState) (level : Int)
    (reasonIn : ValidationInvalidReason) (ret : Bool) (code : Nat)
    (rr : String) (corr : Bool) (dm : String) (msg : String) :
    (s.DoS level reasonIn ret code rr corr dm).2.corruptionPossible = corr
    ∧ (s.Error msg).2.corruptionPossible = s.corruptionPossible
    ∧ (s.SetCorruptionPossible).corruptionPossible = true := by
  refine ⟨?_, ?_, rfl⟩
  · simp only [CValidationState.DoS]
    split <;> rfl
  · simp only [CValidationState.Error]
    split <;> rfl

/-! ## Script verification engine (src/kernel/bitcoinkernel.cpp) -/

/-- Transaction outpoint: (transaction id, output index).  The 256-bit
transaction hash is modelled as a Nat (hashing itself is external to this
core). -/
structure COutPoint where
  hash : Nat
  n : Nat
deriving DecidableEq

/-- Transaction input: the outpoint it spends, its unlocking script bytes and
its witness stack.  Script bytes are opaque to this core. -/
structure CTxIn where
  prevout : COutPoint
  scriptSig : List Nat
  scriptWitness : List (List Nat)

/-- Transaction output: amount and locking script bytes. -/
structure CTxOut where
  nValue : Int
  scriptPubKey : List Nat

/-- Transaction: ordered inputs and outputs. -/
structure CTransaction where
  vin : List CTxIn
  vout : List CTxOut

/-- kernel_SCRIPT_FLAGS_VERIFY_P2SH from src/kernel/bitcoinkernel.h. -/
def kernel_SCRIPT_FLAGS_VERIFY_P2SH : Nat := 1

/-- kernel_SCRIPT_FLAGS_VERIFY_DERSIG from src/kernel/bitcoinkernel.h. -/
def kernel_SCRIPT_FLAGS_VERIFY_DERSIG : Nat := 4

/-- kernel_SCRIPT_FLAGS_VERIFY_NULLDUMMY from src/kernel/bitcoinkernel.h. -/
def kernel_SCRIPT_FLAGS_VERIFY_NULLDUMMY : Nat := 16

/-- kernel_SCRIPT_FLAGS_VERIFY_CHECKLOCKTIMEVERIFY from
src/kernel/bitcoinkernel.h. -/
def kernel_SCRIPT_FLAGS_VERIFY_CHECKLOCKTIMEVERIFY : Nat := 512

/-- kernel_SCRIPT_FLAGS_VERIFY_CHECKSEQUENCEVERIFY from
src/kernel/bitcoinkernel.h. -/
def kernel_SCRIPT_FLAGS_VERIFY_CHECKSEQUENCEVERIFY : Nat := 1024

/-- kernel_SCRIPT_FLAGS_VERIFY_WITNESS from src/kernel/bitcoinkernel.h. -/
def kernel_SCRIPT_FLAGS_VERIFY_WITNESS : Nat := 2048

/-- kernel_SCRIPT_FLAGS_VERIFY_TAPROOT from src/kernel/bitcoinkernel.h. -/
def kernel_SCRIPT_FLAGS_VERIFY_TAPROOT : Nat := 131072

/-- kernel_SCRIPT_FLAGS_VERIFY_ALL from src/kernel/bitcoinkernel.h: the union
of the seven recognized flags.  Note that no clean-stack flag is part of the
recognized set. -/
def kernel_SCRIPT_FLAGS_VERIFY_ALL : Nat :=
  kernel_SCRIPT_FLAGS_VERIFY_P2SH |||
  kernel_SCRIPT_FLAGS_VERIFY_DERSIG |||
  kernel_SCRIPT_FLAGS_VERIFY_NULLDUMMY |||
  kernel_SCRIPT_FLAGS_VERIFY_CHECKLOCKTIMEVERIFY |||
  kernel_SCRIPT_FLAGS_VERIFY_CHECKSEQUENCEVERIFY |||
  kernel_SCRIPT_FLAGS_VERIFY_WITNESS |||
  kernel_SCRIPT_FLAGS_VERIFY_TAPROOT

/-- Modelled from the spec: the script interpreter header
(script/interpreter.h) is not under src/, so the numeric values of the
SCRIPT_VERIFY_P2SH bit used by is_valid_flag_combination are taken from the
stable script-verification interface (bit 0). -/
def SCRIPT_VERIFY_P2SH : Nat := 1

/-- Modelled from the spec: SCRIPT_VERIFY_CLEANSTACK, the clean-stack
requirement referenced by the flag-combination rule of the spec, is bit 8 of
the script-verification interface (script/interpreter.h, not under src/). -/
def SCRIPT_VERIFY_CLEANSTACK : Nat := 256

/-- Modelled from the spec: SCRIPT_VERIFY_WITNESS, the witness-style flag of
the flag-combination rules, is bit 11 of the script-verification interface
(script/interpreter.h, not under src/). -/
def SCRIPT_VERIFY_WITNESS : Nat := 2048

/-- Value of the C expression (NOT x) AND m on 32-bit unsigned values, for m
whose set bits are a subset of the modelled masks: the bits of m that are not
set in x. -/
def complAnd (x m : Nat) : Nat := m ^^^ (m &&& x)

/-- verify_flags from src/kernel/bitcoinkernel.cpp: all set flag bits must be
recognized, that is flags AND (NOT kernel_SCRIPT_FLAGS_VERIFY_ALL) must be
zero. -/
def verify_flags (flags : Nat) : Bool :=
  complAnd kernel_SCRIPT_FLAGS_VERIFY_ALL flags == 0

/-- is_valid_flag_combination from src/kernel/bitcoinkernel.cpp: a clean-stack
requirement demands both the P2SH and the witness flag, and the witness flag
demands the P2SH flag. -/
def is_valid_flag_combination (flags : Nat) : Bool :=
  if flags &&& SCRIPT_VERIFY_CLEANSTACK != 0
      && complAnd flags (SCRIPT_VERIFY_P2SH ||| SCRIPT_VERIFY_WITNESS) != 0 then
    false
  else if flags &&& SCRIPT_VERIFY_WITNESS != 0
      && complAnd flags SCRIPT_VERIFY_P2SH != 0 then
    false
  else
    true

/-- kernel_ScriptVerifyStatus from src/kernel/bitcoinkernel.h. -/
inductive KernelScriptVerifyStatus where
  | kernel_SCRIPT_VERIFY_OK
  | kernel_SCRIPT_VERIFY_ERROR_TX_INPUT_INDEX
  | kernel_SCRIPT_VERIFY_ERROR_INVALID_FLAGS
  | kernel_SCRIPT_VERIFY_ERROR_INVALID_FLAGS_COMBINATION
  | kernel_SCRIPT_VERIFY_ERROR_SPENT_OUTPUTS_REQUIRED
  | kernel_SCRIPT_VERIFY_ERROR_SPENT_OUTPUTS_MISMATCH
deriving DecidableEq

/-- The script interpreter VerifyScript together with the signature checker it
is bound to, abstracted as an oracle (its instruction semantics are out of
scope).  Arguments: scriptSig, scriptPubKey, witness, flags, transaction,
input index, amount, and the spent outputs the precomputed signature-hash
cache was seeded with (if any). -/
def ScriptInterp : Type :=
  List Nat → List Nat → List (List Nat) → Nat → CTransaction → Nat → Int →
    Option (List CTxOut) → Bool

/-- Outcome of one kernel_verify_script call: the returned bool, the value
written through the status pointer (none when the function never writes it),
and whether the script interpreter was invoked. -/
structure KernelVerifyResult where
  result : Bool
  statusWrite : Option KernelScriptVerifyStatus
  interpreterInvoked : Bool

/-- The Bool condition of the taproot pre-check of kernel_verify_script:
the taproot flag is set but no spent outputs were provided. -/
def taprootNeedsSpentOutputs (flags : Nat) (spent_outputs : Option (List CTxOut)) :
    Bool :=
  flags &&& kernel_SCRIPT_FLAGS_VERIFY_TAPROOT != 0 && spent_outputs.isNone

/-- The Bool condition of the spent-outputs length pre-check of
kernel_verify_script: outputs were provided but their count differs from the
input count of the transaction. -/
def spentOutputsMismatch (spent_outputs : Option (List CTxOut))
    (tx : CTransaction) : Bool :=
  match spent_outputs with
  | none => false
  | some so => so.length != tx.vin.length

/-- kernel_verify_script from src/kernel/bitcoinkernel.cpp.  The five
pre-checks short-circuit in source order, each writing its status (the status
pointer is modelled by recording the written value, none meaning no write)
and returning false without reaching VerifyScript.  On passing all pre-checks
the interpreter oracle decides the result; its last argument models the spent
outputs that PrecomputedTransactionData was seeded with, which the source
does only when both the spent outputs and the taproot flag are present. -/
def kernel_verify_script (interp : ScriptInterp) (script_pubkey : List Nat)
    (amount : Int) (tx : CTransaction) (spent_outputs : Option (List CTxOut))
    (input_index : Nat) (flags : Nat) : KernelVerifyResult :=
  if !verify_flags flags then
    ⟨false, some KernelScriptVerifyStatus.kernel_SCRIPT_VERIFY_ERROR_INVALID_FLAGS,
      false⟩
  else if !is_valid_flag_combination flags then
    ⟨false,
      some KernelScriptVerifyStatus.kernel_SCRIPT_VERIFY_ERROR_INVALID_FLAGS_COMBINATION,
      false⟩
  else if taprootNeedsSpentOutputs flags spent_outputs then
    ⟨false,
      some KernelScriptVerifyStatus.kernel_SCRIPT_VERIFY_ERROR_SPENT_OUTPUTS_REQUIRED,
      false⟩
  else if spentOutputsMismatch spent_outputs tx then
    ⟨false,
      some KernelScriptVerifyStatus.kernel_SCRIPT_VERIFY_ERROR_SPENT_OUTPUTS_MISMATCH,
      false⟩
  else if tx.vin.length ≤ input_index then
    ⟨false,
      some KernelScriptVerifyStatus.kernel_SCRIPT_VERIFY_ERROR_TX_INPUT_INDEX,
      false⟩
  else
    let txdata_spent : Option (List CTxOut) :=
      if spent_outputs.isSome
          && flags &&& kernel_SCRIPT_FLAGS_VERIFY_TAPROOT != 0 then
        spent_outputs
      else none
    let txin := tx.vin.getD input_index ⟨⟨0, 0⟩, [], []⟩
    ⟨interp txin.scriptSig script_pubkey txin.scriptWitness flags tx input_index
        amount txdata_spent,
      none, true⟩

/-- An interpreter oracle accepting everything, used for concrete runs. -/
def interpAccept : ScriptInterp := fun _ _ _ _ _ _ _ _ => true

/-- A one-input transaction used for concrete runs. -/
def txOneInput : CTransaction := ⟨[⟨⟨0, 0⟩, [], []⟩], []⟩

/-- C7 counterexample: flags = clean-stack alone does not yield the
invalid-flag-combination status.  The clean-stack bit is not part of
kernel_SCRIPT_FLAGS_VERIFY_ALL, so the recognized-flags pre-check fires first
and the status written is invalid-flags. -/
theorem cleanstack_alone_status_cex :
    (kernel_verify_script interpAccept [] 0 txOneInput none 0
        SCRIPT_VERIFY_CLEANSTACK).statusWrite
      = some KernelScriptVerifyStatus.kernel_SCRIPT_VERIFY_ERROR_INVALID_FLAGS
    ∧ (some KernelScriptVerifyStatus.kernel_SCRIPT_VERIFY_ERROR_INVALID_FLAGS
        ≠ some KernelScriptVerifyStatus.kernel_SCRIPT_VERIFY_ERROR_INVALID_FLAGS_COMBINATION) := by
  decide

/-- C7 amended: for any flag bitmask that passes the recognized-flags
pre-check, violating a flag-combination rule makes kernel_verify_script
return false, write the invalid-flag-combination status and never invoke the
interpreter; flags = clean-stack alone instead fails the recognized-flags
pre-check (clean-stack is not a recognized kernel flag) and yields the
invalid-flags status, result false, interpreter not invoked. -/
theorem invalid_flag_combination_rejected (interp : ScriptInterp)
    (script_pubkey : List Nat) (amount : Int) (tx : CTransaction)
    (spent_outputs : Option (List CTxOut)) (input_index : Nat) (flags : Nat)
    (h1 : verify_flags flags = true)
    (h2 : is_valid_flag_combination flags = false) :
    kernel_verify_script interp script_pubkey amount tx spent_outputs
        input_index flags
      = ⟨false,
          some KernelScriptVerifyStatus.kernel_SCRIPT_VERIFY_ERROR_INVALID_FLAGS_COMBINATION,
          false⟩
    ∧ kernel_verify_script interp script_pubkey amount tx spent_outputs
        input_index SCRIPT_VERIFY_CLEANSTACK
      = ⟨false,
          some KernelScriptVerifyStatus.kernel_SCRIPT_VERIFY_ERROR_INVALID_FLAGS,
          false⟩ := by
  constructor
  · simp [kernel_verify_script, h1, h2]
  · have hv : verify_flags SCRIPT_VERIFY_CLEANSTACK = false := by decide
    simp [kernel_verify_script, hv]

/-- C7 witness: the witness flag alone is recognized but violates the
combination rules (witness without P2SH). -/
theorem invalid_flag_combination_rejected_witness :
    verify_flags kernel_SCRIPT_FLAGS_VERIFY_WITNESS = true
    ∧ is_valid_flag_combination kernel_SCRIPT_FLAGS_VERIFY_WITNESS = false
    ∧ kernel_verify_script interpAccept [] 0 txOneInput none 0
        kernel_SCRIPT_FLAGS_VERIFY_WITNESS
      = ⟨false,
          some KernelScriptVerifyStatus.kernel_SCRIPT_VERIFY_ERROR_INVALID_FLAGS_COMBINATION,
          false⟩ := by
  refine ⟨by decide, by decide, ?_⟩
  exact (invalid_flag_combination_rejected interpAccept [] 0 txOneInput none 0
    kernel_SCRIPT_FLAGS_VERIFY_WITNESS (by decide) (by decide)).1

/-- C9: when all five pre-checks pass, kernel_verify_script never writes the
status slot (a slot initialized to OK stays OK), regardless of the verdict of
the interpreter oracle; the returned bool is exactly that verdict. -/
theorem prechecks_pass_status_untouched (interp : ScriptInterp)
    (script_pubkey : List Nat) (amount : Int) (tx : CTransaction)
    (spent_outputs : Option (List CTxOut)) (input_index : Nat) (flags : Nat)
    (h1 : verify_flags flags = true)
    (h2 : is_valid_flag_combination flags = true)
    (h3 : taprootNeedsSpentOutputs flags spent_outputs = false)
    (h4 : spentOutputsMismatch spent_outputs tx = false)
    (h5 : input_index < tx.vin.length) :
    (kernel_verify_script interp script_pubkey amount tx spent_outputs
        input_index flags).statusWrite = none
    ∧ (kernel_verify_script interp script_pubkey amount tx spent_outputs
        input_index flags).interpreterInvoked = true := by
  have h5' : ¬ tx.vin.length ≤ input_index := Nat.not_le.mpr h5
  simp [kernel_verify_script, h1, h2, h3, h4, h5']

/-- C9 witness: a concrete call passing every pre-check. -/
theorem prechecks_pass_status_untouched_witness :
    verify_flags 0 = true
    ∧ is_valid_flag_combination 0 = true
    ∧ (kernel_verify_script interpAccept [] 0 txOneInput none 0 0).statusWrite
        = none := by
  refine ⟨by decide, by decide, ?_⟩
  exact (prechecks_pass_status_untouched interpAccept [] 0 txOneInput none 0 0
    (by decide) (by decide) (by decide) (by decide) (by decide)).1

/-! ## Concurrent input fetch engine (src/inputfetcher.h) -/

/-- A coin record of the UTXO set: the output data, the coinbase-origin flag
and the creation height. -/
structure Coin where
  out : CTxOut
  fCoinBase : Bool
  nHeight : Nat

/-- A block transaction as seen by the fetch engine: its id (GetHash is
modelled as a field, hashing being external), its coinbase flag and its
inputs. -/
structure BlockTransaction where
  txid : Nat
  isCoinBase : Bool
  vin : List CTxIn

/-- A block: its ordered transaction sequence. -/
structure CBlock where
  vtx : List BlockTransaction

/-- The working-set cache (CCoinsViewCache, an external collaborator with a
narrow contract), modelled as an association list keyed by outpoint. -/
abbrev CoinsCache : Type := List (COutPoint × Coin)

/-- The persistent UTXO store (CCoinsViewDB::GetCoin), a read-only point
lookup. -/
abbrev CoinsDB : Type := COutPoint → Option Coin

/-- Point lookup in the working-set cache. -/
def lookupCoin : CoinsCache → COutPoint → Option Coin
  | [], _ => none
  | (k, c) :: rest, o => if k = o then some c else lookupCoin rest o

/-- CCoinsViewCache::HaveCoinInCache for the modelled cache. -/
def HaveCoinInCache (cache : CoinsCache) (o : COutPoint) : Bool :=
  (lookupCoin cache o).isSome

/-- CCoinsViewCache::EmplaceCoinInternalDANGER: inserts the pair when the
outpoint is not yet present (emplace semantics); the set_dirty argument is
always false on this call path and does not affect membership. -/
def EmplaceCoinInternalDANGER (cache : CoinsCache) (o : COutPoint) (c : Coin) :
    CoinsCache :=
  if HaveCoinInCache cache o then cache else (o, c) :: cache

/-- Result-drain write-back of FetchInputs: every fetched pair is emplaced
into the cache in order. -/
def writePairs (cache : CoinsCache) (pairs : List (COutPoint × Coin)) :
    CoinsCache :=
  pairs.foldl (fun c p => EmplaceCoinInternalDANGER c p.1 p.2) cache

/-- The per-transaction scan of FetchInputs: an input outpoint is buffered
unless its producing txid was recorded from an earlier non-coinbase
transaction of the same block or it is already in the cache. -/
def scanTxInputs (cache : CoinsCache) (txids : List Nat) (vin : List CTxIn) :
    List COutPoint :=
  (vin.map (fun i => i.prevout)).filter
    (fun o => !(txids.contains o.hash) && !(HaveCoinInCache cache o))

/-- The block scan of FetchInputs over the remaining transactions, threading
the set of txids of the non-coinbase transactions already walked.  Coinbase
transactions are skipped entirely; note the source also skips recording their
txid. -/
def blockCandidatesAux (cache : CoinsCache) :
    List BlockTransaction → List Nat → List COutPoint
  | [], _ => []
  | tx :: rest, txids =>
    if tx.isCoinBase then
      blockCandidatesAux cache rest txids
    else
      scanTxInputs cache txids tx.vin ++
        blockCandidatesAux cache rest (tx.txid :: txids)

/-- All outpoints FetchInputs hands to the shared queue for a block, in queue
order (the chunked Add calls only ever append, so the concatenation of the
handed batches is this list). -/
def blockCandidates (cache : CoinsCache) (block : CBlock) : List COutPoint :=
  blockCandidatesAux cache block.vtx []

/-- The batch size a worker claims (src/inputfetcher.h, Loop): the even
per-worker share of the in-flight work, clamped by the queue length and the
configured batch size, and at least one. -/
def claimBatchSize (batch_size worker_count in_flight queue_len : Nat) : Nat :=
  max 1 (min (min queue_len batch_size) (in_flight / worker_count))

/-- The disk-fetch loop body over a claimed batch (src/inputfetcher.h, Loop):
each outpoint is looked up in the store; on the first missing coin the rest
of the batch is abandoned, keeping the pairs already produced. -/
def processBatch (db : CoinsDB) : List COutPoint → List (COutPoint × Coin)
  | [] => []
  | o :: rest =>
    match db o with
    | none => []
    | some coin => (o, coin) :: processBatch db rest

/-- Formalisation of the wording of C4 (spec side, to be compared with
processBatch): the pairs of the longest leading run of the batch whose store
lookups all succeed. -/
def specBatchResults (db : CoinsDB) (batch : List COutPoint) :
    List (COutPoint × Coin) :=
  (batch.takeWhile (fun o => (db o).isSome)).filterMap
    (fun o => (db o).map (fun c => (o, c)))

/-- Shared state of the fetch engine under its single mutex, plus the
worker-local claimed batches and the working-set cache owned by the main
side.  Field names follow src/inputfetcher.h; claimed holds one entry per
worker that has taken a batch whose results are not yet merged. -/
structure FetcherState where
  m_outpoints : List COutPoint
  m_pairs : List (COutPoint × Coin)
  m_in_flight_fetches_count : Nat
  claimed : List (List COutPoint)
  cache : CoinsCache

/-- State reached by the batch-claim critical section of Loop: the computed
number of outpoints is removed from the tail of the queue (the source moves
the range starting at end minus the batch size) and held by the claiming
worker. -/
def claimTarget (batch_size worker_count : Nat) (s : FetcherState) :
    FetcherState :=
  ⟨s.m_outpoints.take (s.m_outpoints.length -
      claimBatchSize batch_size worker_count s.m_in_flight_fetches_count
        s.m_outpoints.length),
    s.m_pairs,
    s.m_in_flight_fetches_count,
    s.m_outpoints.drop (s.m_outpoints.length -
      claimBatchSize batch_size worker_count s.m_in_flight_fetches_count
        s.m_outpoints.length) :: s.claimed,
    s.cache⟩

/-- Atomic steps of the fetch engine.  Each constructor is one critical
section of the source, so a step relation interleaving them covers every
point at which the mutex is released:

- add: InputFetcher::Add appends a non-empty batch to the queue and raises
  the in-flight counter by its size (the empty case returns before locking);
- claim: a worker with no unmerged batch takes claimBatchSize outpoints off
  the queue tail (Loop, lines computing even_bucket and erasing the range);
- publish: a worker merges the processBatch results of a batch it holds into
  m_pairs and lowers the in-flight counter by the full batch size, whether or
  not the batch was cut short by a missing coin (Loop, the clean-up at the
  top of the critical section);
- drain: the main side moves m_pairs out and emplaces every pair into the
  cache (FetchInputs, the result-drain loop). -/
inductive FetcherStep (db : CoinsDB) (batch_size worker_count : Nat) :
    FetcherState → FetcherState → Prop where
  | add (s : FetcherState) (outpoints : List COutPoint) (h : outpoints ≠ []) :
      FetcherStep db batch_size worker_count s
        ⟨s.m_outpoints ++ outpoints, s.m_pairs,
          s.m_in_flight_fetches_count + outpoints.length, s.claimed, s.cache⟩
  | claim (s : FetcherState) (hq : s.m_outpoints ≠ [])
      (hw : s.claimed.length < worker_count) :
      FetcherStep db batch_size worker_count s
        (claimTarget batch_size worker_count s)
  | publish (s : FetcherState) (batch : List COutPoint)
      (hb : batch ∈ s.claimed) :
      FetcherStep db batch_size worker_count s
        ⟨s.m_outpoints, s.m_pairs ++ processBatch db batch,
          s.m_in_flight_fetches_count - batch.length, s.claimed.erase batch,
          s.cache⟩
  | drain (s : FetcherState) :
      FetcherStep db batch_size worker_count s
        ⟨s.m_outpoints, [], s.m_in_flight_fetches_count, s.claimed,
          writePairs s.cache s.m_pairs⟩

/-- The engine state at rest: empty queues, zero in-flight counter, no
claimed batches. -/
def initialFetcherState (cache : CoinsCache) : FetcherState :=
  ⟨[], [], 0, [], cache⟩

/-- The counter invariant of C3: m_in_flight_fetches_count equals the queue
length plus the sizes of all batches claimed by workers and not yet merged
(being a Nat, it is in particular never negative). -/
def inFlightInvariant (s : FetcherState) : Prop :=
  s.m_in_flight_fetches_count =
    s.m_outpoints.length + (s.claimed.map List.length).sum

/-- One claim-then-publish round of the fetch phase under the serial
schedule, recursing structurally on a fuel bound.  Every claim removes at
least one outpoint, so fuel equal to the queue length is never exhausted (the
zero-fuel branch on a non-empty queue is unreachable under the bound
queue length ≤ fuel that every lemma below carries). -/
def drainQueueSerialAux (db : CoinsDB) (batch_size worker_count : Nat) :
    Nat → List COutPoint → List (COutPoint × Coin)
  | _, [] => []
  | 0, _ :: _ => []
  | fuel + 1, o :: rest =>
    processBatch db ((o :: rest).drop ((o :: rest).length -
        claimBatchSize batch_size worker_count (o :: rest).length
          (o :: rest).length)) ++
      drainQueueSerialAux db batch_size worker_count fuel
        ((o :: rest).take ((o :: rest).length -
          claimBatchSize batch_size worker_count (o :: rest).length
            (o :: rest).length))

/-- The fetch phase under the serial schedule: all Add calls have completed
(so the in-flight counter equals the queue length), and a single worker
alternates claim and publish until the queue is empty.  Produces the
concatenated merged pairs. -/
def drainQueueSerial (db : CoinsDB) (batch_size worker_count : Nat)
    (queue : List COutPoint) : List (COutPoint × Coin) :=
  drainQueueSerialAux db batch_size worker_count queue.length queue

/-- InputFetcher::FetchInputs under the serial schedule: scan the block for
the outpoints to fetch, run the queue down with one active worker, and write
every merged pair back into the cache.  Each such run is one realizable
schedule of the engine (serialRunReachable below exhibits the corresponding
step sequence). -/
def FetchInputs (db : CoinsDB) (batch_size worker_count : Nat)
    (cache : CoinsCache) (block : CBlock) : CoinsCache :=
  writePairs cache
    (drainQueueSerial db batch_size worker_count (blockCandidates cache block))

/-- A claimed batch is never larger than the queue it is taken from. -/
theorem claimBatchSize_le (batch_size worker_count in_flight queue_len : Nat)
    (h : 0 < queue_len) :
    claimBatchSize batch_size worker_count in_flight queue_len ≤ queue_len := by
  unfold claimBatchSize
  generalize in_flight / worker_count = e
  omega

/-- A claimed batch always holds at least one outpoint. -/
theorem claimBatchSize_pos (batch_size worker_count in_flight queue_len : Nat) :
    1 ≤ claimBatchSize batch_size worker_count in_flight queue_len :=
  Nat.le_max_left 1 _

/-- C10: with the queue non-empty and at least one worker, the computed batch
size n satisfies 1 ≤ n ≤ queue length — even when the even per-worker share
is zero — so removing n outpoints from the queue tail is in bounds and leaves
exactly queue length minus n entries (no underflow). -/
theorem claim_size_in_bounds (batch_size worker_count : Nat)
    (s : FetcherState) (hq : s.m_outpoints ≠ []) (hwc : 1 ≤ worker_count) :
    1 ≤ claimBatchSize batch_size worker_count s.m_in_flight_fetches_count
          s.m_outpoints.length
    ∧ claimBatchSize batch_size worker_count s.m_in_flight_fetches_count
          s.m_outpoints.length ≤ s.m_outpoints.length
    ∧ (claimTarget batch_size worker_count s).m_outpoints.length
        + claimBatchSize batch_size worker_count s.m_in_flight_fetches_count
            s.m_outpoints.length
        = s.m_outpoints.length := by
  have hq' : 0 < s.m_outpoints.length := List.length_pos.mpr hq
  have hle := claimBatchSize_le batch_size worker_count
    s.m_in_flight_fetches_count s.m_outpoints.length hq'
  refine ⟨claimBatchSize_pos _ _ _ _, hle, ?_⟩
  simp only [claimTarget, List.length_take]
  omega

/-- C10 witness: a singleton queue with one worker and an even share of
zero. -/
theorem claim_size_in_bounds_witness :
    (FetcherState.mk [⟨1, 0⟩] [] 1 [] []).m_outpoints ≠ []
    ∧ 1 ≤ claimBatchSize 2 1 1 1 := by
  refine ⟨by decide, ?_⟩
  exact (claim_size_in_bounds 2 1 (FetcherState.mk [⟨1, 0⟩] [] 1 [] [])
    (by decide) (by decide)).1

/-- C6: whenever a worker claims a batch (queue non-empty, a worker free,
hence worker count at least one; stopping is outside the modelled scope), the
number of outpoints removed from the queue equals
max(1, min(batch_size, queue_length, in_flight / worker_count)) with integer
division. -/
theorem claim_removes_even_share (db : CoinsDB) (batch_size worker_count : Nat)
    (s : FetcherState) (hq : s.m_outpoints ≠ [])
    (hw : s.claimed.length < worker_count) :
    FetcherStep db batch_size worker_count s
        (claimTarget batch_size worker_count s)
    ∧ s.m_outpoints.length
        - (claimTarget batch_size worker_count s).m_outpoints.length
      = max 1 (min batch_size (min s.m_outpoints.length
          (s.m_in_flight_fetches_count / worker_count))) := by
  refine ⟨FetcherStep.claim s hq hw, ?_⟩
  have hq' : 0 < s.m_outpoints.length := List.length_pos.mpr hq
  have hle := claimBatchSize_le batch_size worker_count
    s.m_in_flight_fetches_count s.m_outpoints.length hq'
  simp only [claimTarget, List.length_take]
  unfold claimBatchSize at hle ⊢
  generalize s.m_in_flight_fetches_count / worker_count = e at hle ⊢
  omega

/-- C6 witness: a two-element queue, two workers, even share one. -/
theorem claim_removes_even_share_witness :
    (FetcherState.mk [⟨1, 0⟩, ⟨2, 0⟩] [] 2 [] []).m_outpoints ≠ []
    ∧ (FetcherState.mk [⟨1, 0⟩, ⟨2, 0⟩] [] 2 [] []).claimed.length < 2
    ∧ [⟨1, 0⟩, (⟨2, 0⟩ : COutPoint)].length
        - (claimTarget 8 2 (FetcherState.mk [⟨1, 0⟩, ⟨2, 0⟩] [] 2 [] [])).m_outpoints.length
      = max 1 (min 8 (min 2 (2 / 2))) := by
  refine ⟨by decide, by decide, ?_⟩
  exact (claim_removes_even_share (fun _ => none) 8 2
    (FetcherState.mk [⟨1, 0⟩, ⟨2, 0⟩] [] 2 [] []) (by decide) (by decide)).2

/-- Erasing one held batch lowers the summed held sizes by exactly its
length. -/
theorem sum_map_length_erase (l : List (List COutPoint)) (b : List COutPoint)
    (hb : b ∈ l) :
    (l.map List.length).sum
      = b.length + ((l.erase b).map List.length).sum := by
  induction l with
  | nil => cases hb
  | cons a rest ih =>
    by_cases hab : a = b
    · subst hab
      simp [List.erase_cons]
    · have hbr : b ∈ rest := by
        cases hb with
        | head => exact absurd rfl hab
        | tail _ h => exact h
      simp only [List.erase_cons, beq_iff_eq, hab, if_false, List.map_cons,
        List.sum_cons, ih hbr]
      omega

/-- Every atomic step of the engine preserves the in-flight counter
invariant. -/
theorem fetcherStep_preserves_invariant (db : CoinsDB)
    (batch_size worker_count : Nat) {s s' : FetcherState}
    (hs : inFlightInvariant s) (h : FetcherStep db batch_size worker_count s s') :
    inFlightInvariant s' := by
  cases h with
  | add outpoints hne =>
    unfold inFlightInvariant at hs ⊢
    dsimp only
    simp only [List.length_append]
    omega
  | claim hq hw =>
    have hq' : 0 < s.m_outpoints.length := List.length_pos.mpr hq
    have hle := claimBatchSize_le batch_size worker_count
      s.m_in_flight_fetches_count s.m_outpoints.length hq'
    unfold inFlightInvariant at hs ⊢
    unfold claimTarget
    dsimp only
    simp only [List.length_take, List.map_cons, List.sum_cons, List.length_drop]
    omega
  | publish batch hb =>
    have hsum : (s.claimed.map List.length).sum
        = batch.length + ((s.claimed.erase batch).map List.length).sum :=
      sum_map_length_erase s.claimed batch hb
    unfold inFlightInvariant at hs ⊢
    dsimp only
    omega
  | drain =>
    exact hs

/-- C3: in every state the engine can reach from rest by its atomic steps —
that is, at every point where the mutex is released during any interleaving
of Add, Loop and FetchInputs — the in-flight counter equals the queue length
plus the sum of the batch sizes claimed by workers and not yet merged (and,
being a Nat, is in particular never negative). -/
theorem in_flight_invariant_reachable (db : CoinsDB)
    (batch_size worker_count : Nat) (cache : CoinsCache) (s : FetcherState)
    (h : Relation.ReflTransGen (FetcherStep db batch_size worker_count)
      (initialFetcherState cache) s) :
    inFlightInvariant s := by
  induction h with
  | refl => rfl
  | tail hsteps hstep ih =>
    exact fetcherStep_preserves_invariant db batch_size worker_count ih hstep

/-- C3 witness: the invariant at the initial state itself. -/
theorem in_flight_invariant_reachable_witness :
    inFlightInvariant (initialFetcherState []) :=
  in_flight_invariant_reachable (fun _ => none) 2 1 [] (initialFetcherState [])
    Relation.ReflTransGen.refl

/-- C4: the results a worker produces for a claimed batch are exactly the
(outpoint, coin) pairs of the longest leading run of the batch whose store
lookups succeed: the first missing coin abandons the remainder, and the pairs
already produced are kept (the publish step later merges precisely
processBatch of the batch). -/
theorem worker_batch_longest_ok_run (db : CoinsDB) (batch : List COutPoint) :
    processBatch db batch = specBatchResults db batch := by
  induction batch with
  | nil => rfl
  | cons o rest ih =>
    cases hdb : db o with
    | none =>
      simp [processBatch, specBatchResults, List.takeWhile_cons, hdb]
    | some coin =>
      simp [processBatch, specBatchResults, List.takeWhile_cons, hdb, ih]

/-- When every outpoint of a batch is present in the store, the worker
produces one pair per outpoint, in batch order. -/
theorem processBatch_keys_of_present (db : CoinsDB) (batch : List COutPoint)
    (h : ∀ o ∈ batch, (db o).isSome = true) :
    (processBatch db batch).map Prod.fst = batch := by
  induction batch with
  | nil => rfl
  | cons o rest ih =>
    have ho : (db o).isSome = true := h o (List.mem_cons_self o rest)
    cases hdb : db o with
    | none => rw [hdb] at ho; cases ho
    | some coin =>
      simp only [processBatch, hdb, List.map_cons]
      rw [ih (fun q hq => h q (List.mem_cons_of_mem o hq))]

/-- Every pair a worker produces records exactly the store lookup of its
outpoint. -/
theorem processBatch_mem (db : CoinsDB) (batch : List COutPoint)
    (p : COutPoint × Coin) (hp : p ∈ processBatch db batch) :
    db p.1 = some p.2 := by
  induction batch with
  | nil => cases hp
  | cons o rest ih =>
    unfold processBatch at hp
    cases hdb : db o with
    | none => rw [hdb] at hp; cases hp
    | some coin =>
      rw [hdb] at hp
      cases hp with
      | head => exact hdb
      | tail _ htail => exact ih htail

/-- When every queued outpoint is present in the store, the serial fetch
phase produces pairs whose outpoints are a permutation of the queue. -/
theorem drainQueueSerialAux_keys_perm (db : CoinsDB)
    (batch_size worker_count : Nat) (fuel : Nat) :
    ∀ (queue : List COutPoint), queue.length ≤ fuel →
      (∀ o ∈ queue, (db o).isSome = true) →
      ((drainQueueSerialAux db batch_size worker_count fuel queue).map
        Prod.fst).Perm queue := by
  induction fuel with
  | zero =>
    intro queue hlen hall
    have hq : queue = [] := List.length_eq_zero.mp (Nat.le_zero.mp hlen)
    subst hq
    simp [drainQueueSerialAux]
  | succ fuel ih =>
    intro queue hlen hall
    match queue with
    | [] => simp [drainQueueSerialAux]
    | o :: rest =>
      have hc := claimBatchSize_pos batch_size worker_count
        (o :: rest).length (o :: rest).length
      have hcle := claimBatchSize_le batch_size worker_count
        (o :: rest).length (o :: rest).length (by simp)
      simp only [drainQueueSerialAux, List.map_append]
      have h1 : (processBatch db ((o :: rest).drop ((o :: rest).length -
          claimBatchSize batch_size worker_count (o :: rest).length
            (o :: rest).length))).map Prod.fst
          = (o :: rest).drop ((o :: rest).length -
              claimBatchSize batch_size worker_count (o :: rest).length
                (o :: rest).length) :=
        processBatch_keys_of_present db _
          (fun q hq => hall q (List.mem_of_mem_drop hq))
      have h2 := ih ((o :: rest).take ((o :: rest).length -
          claimBatchSize batch_size worker_count (o :: rest).length
            (o :: rest).length))
        (by
          simp only [List.length_take, List.length_cons] at hc hcle hlen ⊢
          omega)
        (fun q hq => hall q (List.mem_of_mem_take hq))
      rw [h1]
      exact ((h2.append_left _).trans List.perm_append_comm).trans
        (by rw [List.take_append_drop])

/-- Every pair the serial fetch phase produces records exactly the store
lookup of its outpoint. -/
theorem drainQueueSerialAux_mem (db : CoinsDB)
    (batch_size worker_count : Nat) (fuel : Nat) :
    ∀ (queue : List COutPoint) (p : COutPoint × Coin),
      p ∈ drainQueueSerialAux db batch_size worker_count fuel queue →
      db p.1 = some p.2 := by
  induction fuel with
  | zero =>
    intro queue p hp
    match queue with
    | [] => cases hp
    | o :: rest => cases hp
  | succ fuel ih =>
    intro queue p hp
    match queue with
    | [] => cases hp
    | o :: rest =>
      simp only [drainQueueSerialAux, List.mem_append] at hp
      cases hp with
      | inl h => exact processBatch_mem db _ p h
      | inr h => exact ih _ p h

/-- How one emplace changes a point lookup: it binds its own outpoint when
that outpoint was absent and touches nothing else. -/
theorem lookupCoin_emplace (cache : CoinsCache) (a : COutPoint) (c : Coin)
    (o : COutPoint) :
    lookupCoin (EmplaceCoinInternalDANGER cache a c) o
      = if o = a ∧ (lookupCoin cache a).isNone = true then some c
        else lookupCoin cache o := by
  unfold EmplaceCoinInternalDANGER HaveCoinInCache
  cases ha : lookupCoin cache a with
  | some c1 =>
    simp only [ha, Option.isSome_some, if_true]
    simp [ha]
  | none =>
    simp only [ha, Option.isSome_none, Bool.false_eq_true, if_false]
    by_cases hoa : o = a
    · subst hoa
      simp [lookupCoin, ha]
    · have hao : ¬ (a = o) := fun h => hoa h.symm
      simp [lookupCoin, hao, hoa]

/-- Point lookup after the result-drain write-back, for pair lists whose
entries record store lookups (as all merged results do): entries already
cached win, every other fetched outpoint now yields its store coin, and
nothing else changed. -/
theorem lookupCoin_writePairs (db : CoinsDB) (pairs : List (COutPoint × Coin))
    (hdb : ∀ p ∈ pairs, db p.1 = some p.2) (cache : CoinsCache)
    (o : COutPoint) :
    lookupCoin (writePairs cache pairs) o
      = match lookupCoin cache o with
        | some c => some c
        | none => if o ∈ pairs.map Prod.fst then db o else none := by
  induction pairs generalizing cache with
  | nil =>
    simp only [writePairs, List.foldl_nil, List.map_nil, List.not_mem_nil,
      if_false]
    cases lookupCoin cache o <;> rfl
  | cons p ps ih =>
    have hdbp : db p.1 = some p.2 := hdb p (List.mem_cons_self p ps)
    have hdbs : ∀ q ∈ ps, db q.1 = some q.2 :=
      fun q hq => hdb q (List.mem_cons_of_mem p hq)
    have hstep : writePairs cache (p :: ps)
        = writePairs (EmplaceCoinInternalDANGER cache p.1 p.2) ps := rfl
    rw [hstep, ih hdbs, lookupCoin_emplace]
    by_cases hop : o = p.1
    · subst hop
      cases ho : lookupCoin cache p.1 with
      | none => simp [ho, hdbp]
      | some c1 => simp [ho]
    · simp only [hop, false_and, if_false]
      cases ho : lookupCoin cache o with
      | some c1 => simp [ho]
      | none =>
        have hmem : (o ∈ p.1 :: List.map Prod.fst ps)
            ↔ (o ∈ List.map Prod.fst ps) := by
          simp [List.mem_cons, hop]
        simp only [ho]
        exact (if_congr hmem rfl rfl).symm

/-- Every outpoint the per-transaction scan buffers was neither already
cached nor produced by a recorded earlier transaction. -/
theorem mem_scanTxInputs {cache : CoinsCache} {txids : List Nat}
    {vin : List CTxIn} {o : COutPoint} (h : o ∈ scanTxInputs cache txids vin) :
    HaveCoinInCache cache o = false ∧ txids.contains o.hash = false := by
  unfold scanTxInputs at h
  have hpred := List.of_mem_filter h
  simp only [Bool.and_eq_true, Bool.not_eq_eq_eq_not, Bool.not_true] at hpred
  exact ⟨hpred.2, hpred.1⟩

/-- No outpoint handed to the queue by the block scan is already in the
cache. -/
theorem blockCandidatesAux_not_cached (cache : CoinsCache)
    (txs : List BlockTransaction) (txids : List Nat) (o : COutPoint)
    (h : o ∈ blockCandidatesAux cache txs txids) :
    HaveCoinInCache cache o = false := by
  induction txs generalizing txids with
  | nil => cases h
  | cons tx rest ih =>
    unfold blockCandidatesAux at h
    by_cases hcb : tx.isCoinBase
    · rw [if_pos hcb] at h
      exact ih txids h
    · rw [if_neg hcb, List.mem_append] at h
      cases h with
      | inl hscan => exact (mem_scanTxInputs hscan).1
      | inr hrest => exact ih (tx.txid :: txids) hrest

/-- Characterization of a point lookup after a FetchInputs run in which
every enqueued outpoint is present in the store: cached entries are
untouched, each enqueued outpoint now yields its store coin, all other
outpoints remain absent. -/
theorem fetchInputs_lookup (db : CoinsDB) (batch_size worker_count : Nat)
    (cache : CoinsCache) (block : CBlock)
    (hall : ∀ o ∈ blockCandidates cache block, (db o).isSome = true)
    (o : COutPoint) :
    lookupCoin (FetchInputs db batch_size worker_count cache block) o
      = match lookupCoin cache o with
        | some c => some c
        | none =>
          if o ∈ blockCandidates cache block then db o else none := by
  unfold FetchInputs drainQueueSerial
  rw [lookupCoin_writePairs db _
    (fun p hp => drainQueueSerialAux_mem db batch_size worker_count _ _ p hp)
    cache o]
  have hperm := drainQueueSerialAux_keys_perm db batch_size worker_count
    (blockCandidates cache block).length (blockCandidates cache block)
    le_rfl hall
  cases ho : lookupCoin cache o with
  | some c => rfl
  | none =>
    exact if_congr hperm.mem_iff rfl rfl

/-- C1 amended: provided every enqueued outpoint is present in the store,
the outpoints newly present in the cache after FetchInputs are exactly those
referenced by non-coinbase inputs of the block whose producing txid is not
that of an earlier non-coinbase transaction of the same block and which were
not already cached. -/
theorem fetch_inserts_exactly_candidates (db : CoinsDB)
    (batch_size worker_count : Nat) (cache : CoinsCache) (block : CBlock)
    (hall : ∀ o ∈ blockCandidates cache block, (db o).isSome = true)
    (o : COutPoint) :
    (HaveCoinInCache (FetchInputs db batch_size worker_count cache block) o
          = true
        ∧ HaveCoinInCache cache o = false)
      ↔ o ∈ blockCandidates cache block := by
  have hchar := fetchInputs_lookup db batch_size worker_count cache block hall o
  unfold HaveCoinInCache at *
  constructor
  · rintro ⟨h1, h2⟩
    cases ho : lookupCoin cache o with
    | some c => rw [ho] at h2; cases h2
    | none =>
      rw [ho] at hchar
      by_cases hmem : o ∈ blockCandidates cache block
      · exact hmem
      · rw [if_neg hmem] at hchar
        rw [hchar] at h1
        cases h1
  · intro hmem
    have hnc : (lookupCoin cache o).isSome = false :=
      blockCandidatesAux_not_cached cache block.vtx [] o hmem
    have ho : lookupCoin cache o = none := by
      cases hoc : lookupCoin cache o with
      | none => rfl
      | some c => rw [hoc] at hnc; cases hnc
    rw [ho] at hchar
    rw [if_pos hmem] at hchar
    refine ⟨?_, by rw [ho]; rfl⟩
    rw [hchar]
    exact hall o hmem

/-- C5 amended: provided every enqueued outpoint is present in the store,
the cache contents after FetchInputs do not depend on the worker count (in
particular worker counts 1, 2 and 8 agree pointwise). -/
theorem fetch_worker_count_independent (db : CoinsDB) (batch_size : Nat)
    (wc1 wc2 : Nat) (cache : CoinsCache) (block : CBlock)
    (hall : ∀ o ∈ blockCandidates cache block, (db o).isSome = true)
    (o : COutPoint) :
    lookupCoin (FetchInputs db batch_size wc1 cache block) o
      = lookupCoin (FetchInputs db batch_size wc2 cache block) o := by
  rw [fetchInputs_lookup db batch_size wc1 cache block hall o,
    fetchInputs_lookup db batch_size wc2 cache block hall o]

/-- The serial fetch phase is realizable by engine steps: from a state with
the whole queue pushed (in-flight counter equal to the queue length), one
worker repeatedly claiming and publishing reaches the empty-queue state with
the serial pairs appended to the result queue. -/
theorem serial_phase_reachable (db : CoinsDB) (batch_size worker_count : Nat)
    (hwc : 1 ≤ worker_count) (fuel : Nat) :
    ∀ (q : List COutPoint) (res : List (COutPoint × Coin)) (cache : CoinsCache),
      q.length ≤ fuel →
      Relation.ReflTransGen (FetcherStep db batch_size worker_count)
        ⟨q, res, q.length, [], cache⟩
        ⟨[], res ++ drainQueueSerialAux db batch_size worker_count fuel q, 0,
          [], cache⟩ := by
  induction fuel with
  | zero =>
    intro q res cache hlen
    have hq : q = [] := List.length_eq_zero.mp (Nat.le_zero.mp hlen)
    subst hq
    rw [show drainQueueSerialAux db batch_size worker_count 0 [] = []
      from rfl, List.append_nil]
    exact Relation.ReflTransGen.refl
  | succ fuel ih =>
    intro q res cache hlen
    match q with
    | [] =>
      rw [show drainQueueSerialAux db batch_size worker_count (fuel + 1) [] = []
        from rfl, List.append_nil]
      exact Relation.ReflTransGen.refl
    | o :: rest =>
      have hc := claimBatchSize_pos batch_size worker_count
        (o :: rest).length (o :: rest).length
      have hcle := claimBatchSize_le batch_size worker_count
        (o :: rest).length (o :: rest).length (by simp)
      have hstep1 : FetcherStep db batch_size worker_count
          ⟨o :: rest, res, (o :: rest).length, [], cache⟩
          (claimTarget batch_size worker_count
            ⟨o :: rest, res, (o :: rest).length, [], cache⟩) :=
        FetcherStep.claim _ (by simp) (by simpa using hwc)
      set n := claimBatchSize batch_size worker_count (o :: rest).length
        (o :: rest).length with hn
      set k := (o :: rest).length - n with hk
      have htgt : claimTarget batch_size worker_count
          ⟨o :: rest, res, (o :: rest).length, [], cache⟩
          = ⟨(o :: rest).take k, res, (o :: rest).length,
              [(o :: rest).drop k], cache⟩ := rfl
      have hstep2 : FetcherStep db batch_size worker_count
          ⟨(o :: rest).take k, res, (o :: rest).length,
            [(o :: rest).drop k], cache⟩
          ⟨(o :: rest).take k,
            res ++ processBatch db ((o :: rest).drop k),
            (o :: rest).length - ((o :: rest).drop k).length,
            [(o :: rest).drop k].erase ((o :: rest).drop k), cache⟩ :=
        FetcherStep.publish _ ((o :: rest).drop k) (List.mem_singleton.mpr rfl)
      have herase : [(o :: rest).drop k].erase ((o :: rest).drop k) = [] := by
        simp [List.erase_cons]
      have hdroplen : ((o :: rest).drop k).length = n := by
        simp only [List.length_drop, hk]
        omega
      have htakelen : ((o :: rest).take k).length = k := by
        simp only [List.length_take]
        omega
      have hrest : Relation.ReflTransGen (FetcherStep db batch_size worker_count)
          ⟨(o :: rest).take k, res ++ processBatch db ((o :: rest).drop k),
            ((o :: rest).take k).length, [], cache⟩
          ⟨[], (res ++ processBatch db ((o :: rest).drop k)) ++
              drainQueueSerialAux db batch_size worker_count fuel
                ((o :: rest).take k), 0, [], cache⟩ :=
        ih ((o :: rest).take k) (res ++ processBatch db ((o :: rest).drop k))
          cache (by
            have h1 : 1 ≤ n := hc
            have h2 : n ≤ (o :: rest).length := hcle
            have h3 : k = (o :: rest).length - n := hk
            simp only [List.length_take, List.length_cons] at h2 h3 hlen ⊢
            omega)
      have hlen2 : (o :: rest).length - ((o :: rest).drop k).length = k := by
        rw [hdroplen]
      have hfinal : (res ++ processBatch db ((o :: rest).drop k)) ++
            drainQueueSerialAux db batch_size worker_count fuel
              ((o :: rest).take k)
          = res ++ drainQueueSerialAux db batch_size worker_count (fuel + 1)
              (o :: rest) := by
        rw [List.append_assoc]
        rfl
      rw [htgt] at hstep1
      rw [herase, hlen2] at hstep2
      rw [htakelen, hfinal] at hrest
      exact ((Relation.ReflTransGen.single hstep1).tail hstep2).trans hrest

/-- The full serial FetchInputs run is realizable by engine steps: from the
engine at rest, one Add of all candidate outpoints, the serial fetch phase
and one final result drain reach the engine again at rest with the cache of
the FetchInputs executor. -/
theorem serialRunReachable (db : CoinsDB) (batch_size worker_count : Nat)
    (hwc : 1 ≤ worker_count) (cache : CoinsCache) (block : CBlock) :
    Relation.ReflTransGen (FetcherStep db batch_size worker_count)
      (initialFetcherState cache)
      ⟨[], [], 0, [], FetchInputs db batch_size worker_count cache block⟩ := by
  by_cases hc : blockCandidates cache block = []
  · have hfi : FetchInputs db batch_size worker_count cache block = cache := by
      rw [FetchInputs, hc]
      rfl
    rw [hfi]
    exact Relation.ReflTransGen.refl
  · have hstep1 : FetcherStep db batch_size worker_count
        (initialFetcherState cache)
        ⟨[] ++ blockCandidates cache block, [],
          0 + (blockCandidates cache block).length, [], cache⟩ :=
      FetcherStep.add (initialFetcherState cache) (blockCandidates cache block)
        hc
    have heq : (⟨[] ++ blockCandidates cache block, [],
          0 + (blockCandidates cache block).length, [], cache⟩ : FetcherState)
        = ⟨blockCandidates cache block, [],
            (blockCandidates cache block).length, [], cache⟩ := by
      simp
    rw [heq] at hstep1
    have hphase := serial_phase_reachable db batch_size worker_count hwc
      (blockCandidates cache block).length (blockCandidates cache block) []
      cache le_rfl
    have hstep3 : FetcherStep db batch_size worker_count
        ⟨[], [] ++ drainQueueSerialAux db batch_size worker_count
            (blockCandidates cache block).length
            (blockCandidates cache block), 0, [], cache⟩
        ⟨[], [], 0, [],
          writePairs cache ([] ++ drainQueueSerialAux db batch_size
            worker_count (blockCandidates cache block).length
            (blockCandidates cache block))⟩ :=
      FetcherStep.drain _
    have hw2 : writePairs cache ([] ++ drainQueueSerialAux db batch_size
          worker_count (blockCandidates cache block).length
          (blockCandidates cache block))
        = FetchInputs db batch_size worker_count cache block := rfl
    rw [hw2] at hstep3
    exact ((Relation.ReflTransGen.single hstep1).trans hphase).tail hstep3

/-- A concrete coin for the counterexample runs. -/
def coinEx : Coin := ⟨⟨50, [7]⟩, false, 5⟩

/-- A concrete store for the counterexample runs: only outpoints of
transaction 2 exist. -/
def dbEx : CoinsDB := fun o => if o.hash = 2 then some coinEx else none

/-- A concrete block for the counterexample runs: one non-coinbase
transaction spending outpoint (1,0) — missing from dbEx — and outpoint
(2,0) — present in dbEx. -/
def blockEx : CBlock :=
  ⟨[⟨100, false, [⟨⟨1, 0⟩, [], []⟩, ⟨⟨2, 0⟩, [], []⟩]⟩]⟩

/-- A concrete store with every coin present. -/
def dbAll : CoinsDB := fun _ => some coinEx

/-- C1 counterexample: with batch size 4 and one worker, outpoint (2,0) is a
non-coinbase input of blockEx, not produced earlier in the block and not
cached, yet after FetchInputs it is still not in the cache — the worker
claims the batch [(1,0),(2,0)], hits the missing coin (1,0) first and
abandons the rest, so (2,0) is left out despite being present in the
store. -/
theorem fetch_exact_set_cex :
    (⟨2, 0⟩ : COutPoint) ∈ blockCandidates [] blockEx
    ∧ HaveCoinInCache ([] : CoinsCache) ⟨2, 0⟩ = false
    ∧ HaveCoinInCache (FetchInputs dbEx 4 1 [] blockEx) ⟨2, 0⟩ = false := by
  decide

/-- C5 counterexample: on the same store and block, worker count 8 leads to
batches of size one (the even share 2/8 clamps to the minimum), so outpoint
(2,0) is fetched and inserted, while worker count 1 claims both outpoints in
one batch and loses (2,0) behind the missing (1,0): the final cache contents
differ between worker counts 1 and 8. -/
theorem fetch_worker_count_dependent_cex :
    HaveCoinInCache (FetchInputs dbEx 4 8 [] blockEx) ⟨2, 0⟩ = true
    ∧ HaveCoinInCache (FetchInputs dbEx 4 1 [] blockEx) ⟨2, 0⟩ = false := by
  decide

/-- C1 witness: with every candidate present in the store, outpoint (2,0) is
newly inserted for blockEx. -/
theorem fetch_inserts_exactly_candidates_witness :
    (∀ o ∈ blockCandidates [] blockEx, (dbAll o).isSome = true)
    ∧ (HaveCoinInCache (FetchInputs dbAll 4 1 [] blockEx) ⟨2, 0⟩ = true
        ∧ HaveCoinInCache ([] : CoinsCache) ⟨2, 0⟩ = false) := by
  refine ⟨by decide, ?_⟩
  exact (fetch_inserts_exactly_candidates dbAll 4 1 [] blockEx (by decide)
    ⟨2, 0⟩).mpr (by decide)

/-- C5 witness: with every candidate present in the store, worker counts 1
and 8 agree on blockEx at outpoint (2,0). -/
theorem fetch_worker_count_independent_witness :
    (∀ o ∈ blockCandidates [] blockEx, (dbAll o).isSome = true)
    ∧ lookupCoin (FetchInputs dbAll 4 1 [] blockEx) ⟨2, 0⟩
        = lookupCoin (FetchInputs dbAll 4 8 [] blockEx) ⟨2, 0⟩ := by
  refine ⟨by decide, ?_⟩
  exact fetch_worker_count_independent dbAll 4 1 8 [] blockEx (by decide) ⟨2, 0⟩

end BitcoinSpec
